import Mathlib

/-!
Verification development for the interactive client of the video-analytics
application (files `stream.js`, `video.js`, `photo.js`).

The JavaScript source is shallowly embedded: pure helpers become Lean
functions over `String`, `Nat`, `Int` and `ℚ`; event handlers become state
transformers; every suspension point of an `async` function is modelled by an
environment record that supplies the result of the corresponding awaited
operation (fetch results, and the value of the global generation token when
the suspension resumes).  Observable side effects (badge updates, status/log
writes, player handoff) are collected into explicit effect lists.
-/

/-- The result of awaiting a `fetch`: either the promise rejected
(network-level failure) or a response/value arrived. -/
inductive FetchRes (α : Type)
  | rejected
  | arrived (val : α)
deriving DecidableEq, Repr

/-! Character-level model of the JavaScript string operations used by the
client (all structural recursion, so concrete runs reduce). -/

namespace StrOps

/-- The ASCII whitespace characters removed by `String.prototype.trim`. -/
def chIsWs (c : Char) : Bool :=
  c = ' ' || c = '\t' || c = '\n' || c = '\r' || c = '\x0b' || c = '\x0c'

/-- `trim`: drop whitespace from both ends. -/
def chTrim (cs : List Char) : List Char :=
  ((cs.dropWhile chIsWs).reverse.dropWhile chIsWs).reverse

/-- `text.split(/\r?\n/)`: split at every `\n`, consuming one `\r`
immediately before it. -/
def chSplitReNl : List Char → List (List Char)
  | [] => [[]]
  | '\r' :: '\n' :: rest => [] :: chSplitReNl rest
  | '\n' :: rest => [] :: chSplitReNl rest
  | c :: rest =>
    match chSplitReNl rest with
    | [] => [[c]]
    | line :: more => (c :: line) :: more

/-- `startsWith`. -/
def chStarts (pre cs : List Char) : Bool := pre.isPrefixOf cs

/-- `endsWith`. -/
def chEnds (suf cs : List Char) : Bool := suf.isSuffixOf cs

end StrOps

namespace StreamJS

open StrOps

/-- The four visual states accepted by `setHlsBadge` in `stream.js`. -/
inductive BadgeState
  | idle
  | wait
  | ready
  | error
deriving DecidableEq, Repr

/-- Structured form of the `extra` text shown in the HLS badge
(`0/2`, `2 segs`, `timeout`, ...). -/
inductive BadgeExtra
  | noExtra
  | progress (segs minSegs : Nat)
  | readySegs (segs : Nat)
  | timeoutMsg
  | noHlsUrlMsg
  | reloadErrMsg
deriving DecidableEq, Repr

/-- Reasons passed to `stopPlayer(reason)`. -/
inductive StopReason
  | stopped
  | pipelineStopped
  | reload
  | user
  | fatal
deriving DecidableEq, Repr

/-- Structured form of the messages written by `appendLog` in the code
paths modelled here. -/
inductive LogMsg
  | startFailed (detail : String)
  | pipelineStarted
  | waitCancelled
  | hlsNotReady
  | playerStopped (reason : StopReason)
  | reloadNoUrl
  | reloadWaiting
  | reloadCancelled
  | reloadNotReady
  | reloadFailed
deriving DecidableEq, Repr

/-- The JSON body of a control/status response, restricted to the fields the
client reads (`detail`, `hls_url`).  A missing field is modelled by `""`,
matching the code's truthiness checks. -/
structure StatusData where
  detail : String
  hls_url : String
deriving DecidableEq, Repr

/-- An HTTP response that arrived (as opposed to a network-level failure):
HTTP-level success flag plus parsed JSON body. -/
structure HttpResp where
  ok : Bool
  data : StatusData
deriving DecidableEq, Repr

/-- Observable side effects of the stream controller. -/
inductive Effect
  | setBadge (st : BadgeState) (extra : BadgeExtra)
  | setStatus (d : StatusData)
  | appendLog (m : LogMsg)
  | loadPlayer (url : String)
deriving DecidableEq, Repr

/-- An effect together with the value of the global generation token
(`startToken`) at the instant the effect was performed. -/
structure TaggedEffect where
  eff : Effect
  gAtEmit : Nat
deriving DecidableEq, Repr

/-- Environment of one iteration of the `waitForHlsReady` polling loop:
the result of `fetchTextNoStore` (`.error ()` = the fetch promise rejected,
`.ok none` = non-success HTTP status, `.ok (some s)` = body text), and the
value of the global token when the fetch await resumes and when the
`setTimeout` sleep resumes. -/
structure IterEnv where
  fetched : FetchRes (Option String)
  gAfterFetch : Nat
  gAfterSleep : Nat
deriving DecidableEq, Repr

/-- Outcomes of `waitForHlsReady`: `{ok:true, segs}`, `{cancelled}`,
`{timeout}`, or an exception escaping the loop (rejected fetch). -/
inductive WaitOutcome
  | ready (segs : Nat)
  | cancelled
  | timedOut
  | thrown
deriving DecidableEq, Repr

/-- The `.ts` suffix. -/
def sufTs : List Char := ['.', 't', 's']

/-- The `.m4s` suffix. -/
def sufM4s : List Char := ['.', 'm', '4', 's']

/-- The counting loop of `countSegmentsInM3U8`: skip comment lines, count
lines ending in `.ts` or `.m4s`. -/
def countSegLines : List (List Char) → Nat
  | [] => 0
  | ln :: rest =>
    if chStarts ['#'] ln then countSegLines rest
    else if chEnds sufTs ln || chEnds sufM4s ln then 1 + countSegLines rest
    else countSegLines rest

/-- `countSegmentsInM3U8(text)` from `stream.js`: split on `/\r?\n/`, trim
each line, drop empty lines, then count non-comment segment lines. -/
def countSegmentsInM3U8 (text : String) : Nat :=
  countSegLines (((chSplitReNl text.data).map chTrim).filter (fun s => !s.isEmpty))

/-- The per-line count described literally by the spec sentence: the number
of raw (untrimmed) non-empty lines that do not start with `#` and end with
`.ts` or `.m4s`.  Lines are the pieces produced by splitting on `/\r?\n/`. -/
def specSegmentLineCount (text : String) : Nat :=
  ((chSplitReNl text.data).filter
    (fun l => !l.isEmpty && !(chStarts ['#'] l) &&
      (chEnds sufTs l || chEnds sufM4s l))).length

/-- The same count computed on trimmed lines (the amended reading of the
spec sentence). -/
def trimmedSegmentLineCount (text : String) : Nat :=
  (((chSplitReNl text.data).map chTrim).filter
    (fun l => !l.isEmpty && !(chStarts ['#'] l) &&
      (chEnds sufTs l || chEnds sufM4s l))).length

/-- The body of one polling iteration after the token check: perform the
fetch, and if text arrived count segments and update the badge; returns the
effects performed plus `some outcome` if the loop returns during this
iteration (`none` = fall through to the sleep). -/
def fetchPhase (minSegs : Nat) (env : IterEnv) :
    List TaggedEffect × Option WaitOutcome :=
  match env.fetched with
  | .rejected => ([], some .thrown)
  | .arrived none => ([], none)
  | .arrived (some text) =>
    let segs := countSegmentsInM3U8 text
    let waitE : TaggedEffect := ⟨.setBadge .wait (.progress segs minSegs), env.gAfterFetch⟩
    if minSegs ≤ segs then
      ([waitE, ⟨.setBadge .ready (.readySegs segs), env.gAfterFetch⟩], some (.ready segs))
    else
      ([waitE], none)

/-- The `while` loop of `waitForHlsReady`.  `token` is the captured token,
`g` the current value of the global token at the head of the iteration.  An
exhausted schedule models the expiry of the `timeoutMs` budget (the `while`
condition is checked before the token check, as in the source). -/
def waitLoopGo (token minSegs : Nat) : Nat → List IterEnv → List TaggedEffect × WaitOutcome
  | g, [] => ([⟨.setBadge .error .timeoutMsg, g⟩], .timedOut)
  | g, env :: rest =>
    if token = g then
      match fetchPhase minSegs env with
      | (effs, some out) => (effs, out)
      | (effs, none) =>
        let next := waitLoopGo token minSegs env.gAfterSleep rest
        (effs ++ next.1, next.2)
    else ([], .cancelled)

/-- `waitForHlsReady(hlsUrl, token, {minSegments, ...})`: sets the initial
`wait 0/min` badge, then runs the polling loop.  `g0` is the global token at
call time. -/
def waitForHlsReady (token g0 minSegs : Nat) (sched : List IterEnv) :
    List TaggedEffect × WaitOutcome :=
  let r := waitLoopGo token minSegs g0 sched
  (⟨.setBadge .wait (.progress 0 minSegs), g0⟩ :: r.1, r.2)

/-- Result of running one controller operation: the final value of the
global `startToken`, the effects performed (in order), and `some ()` if an
uncaught exception escaped the handler. -/
structure OpResult where
  token : Nat
  effects : List Effect
  thrown : Option Unit
deriving DecidableEq, Repr

/-- Environment of one `startPipeline()` run: the input url field, the
result of the `POST /api/stream/start` fetch, and the schedule driving the
readiness wait. -/
structure StartEnv where
  inputUrl : String
  fetchStart : FetchRes HttpResp
  sched : List IterEnv
deriving DecidableEq, Repr

/-- Effects of `stopPlayer(reason)`: badge to idle, then the log line
(player teardown is best-effort and swallowed). -/
def stopPlayerEffects (reason : StopReason) : List Effect :=
  [.setBadge .idle .noExtra, .appendLog (.playerStopped reason)]

/-- `startPipeline()` from `stream.js`, with `token0` the value of the
global `startToken` at entry.  Note: there is no `try/catch` in this
handler, so a rejected fetch escapes (`thrown = some ()`); the token is
incremented only after an HTTP-success response. -/
def startPipeline (token0 : Nat) (env : StartEnv) : OpResult :=
  if (chTrim env.inputUrl.data).isEmpty then ⟨token0, [], none⟩
  else
    match env.fetchStart with
    | .rejected => ⟨token0, [], some ()⟩
    | .arrived resp =>
      let effs0 := [Effect.setStatus resp.data]
      if resp.ok = false then
        ⟨token0, effs0 ++ [.appendLog (.startFailed resp.data.detail)], none⟩
      else
        let token1 := token0 + 1
        let effs1 := effs0 ++ [Effect.appendLog .pipelineStarted]
        let w := waitForHlsReady token1 token1 2 env.sched
        let effs2 := effs1 ++ w.1.map TaggedEffect.eff
        match w.2 with
        | .ready _ => ⟨token1, effs2 ++ [.loadPlayer resp.data.hls_url], none⟩
        | .cancelled => ⟨token1, effs2 ++ [.appendLog .waitCancelled], none⟩
        | .timedOut => ⟨token1, effs2 ++ [.appendLog .hlsNotReady], none⟩
        | .thrown => ⟨token1, effs2, some ()⟩

/-- Environment of one `stopPipeline()` run. -/
structure StopEnv where
  fetchStop : FetchRes HttpResp
deriving DecidableEq, Repr

/-- `stopPipeline()` from `stream.js`: bump the token, badge to idle, fetch
`POST /api/stream/stop` (uncaught on rejection), show the status, stop the
player. -/
def stopPipeline (token0 : Nat) (env : StopEnv) : OpResult :=
  let token1 := token0 + 1
  let effs0 := [Effect.setBadge .idle .noExtra]
  match env.fetchStop with
  | .rejected => ⟨token1, effs0, some ()⟩
  | .arrived resp =>
    ⟨token1, effs0 ++ [.setStatus resp.data] ++ stopPlayerEffects .pipelineStopped, none⟩

/-- Environment of one reload-button run: the status fetch result and the
schedule for the readiness wait. -/
structure ReloadEnv where
  fetchSt : FetchRes StatusData
  sched : List IterEnv
deriving DecidableEq, Repr

/-- The `btnReload` click handler from `stream.js`.  The whole body is
wrapped in `try/catch`, so no exception ever escapes; a caught exception is
logged and the badge is set to the error state. -/
def reloadHandler (token0 : Nat) (env : ReloadEnv) : OpResult :=
  let token1 := token0 + 1
  let effsA := stopPlayerEffects .reload
  match env.fetchSt with
  | .rejected =>
    ⟨token1, effsA ++ [.appendLog .reloadFailed, .setBadge .error .reloadErrMsg], none⟩
  | .arrived st =>
    let effsB := effsA ++ [Effect.setStatus st]
    if st.hls_url = "" then
      ⟨token1, effsB ++ [.appendLog .reloadNoUrl, .setBadge .error .noHlsUrlMsg], none⟩
    else
      let effsC := effsB ++ [Effect.appendLog .reloadWaiting]
      let w := waitForHlsReady token1 token1 2 env.sched
      let effsD := effsC ++ w.1.map TaggedEffect.eff
      match w.2 with
      | .ready _ => ⟨token1, effsD ++ [.loadPlayer st.hls_url], none⟩
      | .cancelled => ⟨token1, effsD ++ [.appendLog .reloadCancelled], none⟩
      | .timedOut => ⟨token1, effsD ++ [.appendLog .reloadNotReady], none⟩
      | .thrown =>
        ⟨token1, effsD ++ [.appendLog .reloadFailed, .setBadge .error .reloadErrMsg], none⟩

/-- One iteration of the passive `pollStatus()` loop: everything is inside
`try {} catch {}`, so a failure performs no effect and nothing escapes. -/
def pollStatusOnce (r : FetchRes StatusData) : List Effect × Option Unit :=
  match r with
  | .rejected => ([], none)
  | .arrived st => ([Effect.setStatus st], none)

/-- The guarantee claimed for the wait loop: a wait that captured the token
current at its start performs every observable side effect only while the
global token still equals the captured one (so a superseded wait performs no
further side effects). -/
def noStaleWaitEffects (token minSegs : Nat) (sched : List IterEnv) : Prop :=
  ∀ e ∈ (waitForHlsReady token token minSegs sched).1, e.gAtEmit = token

end StreamJS

namespace VideoJS

/-- A detection box as consumed by `video.js` (native pixel coordinates of
the source frame; class name and confidence). -/
structure Box where
  x1 : ℚ
  y1 : ℚ
  x2 : ℚ
  y2 : ℚ
  cls_name : String
  conf : ℚ
deriving DecidableEq, Repr

/-- One entry of the detection timeline. -/
structure TimelineEntry where
  t : ℚ
  count : Nat
  boxes : List Box
deriving DecidableEq, Repr

/-- Array access `ts[i].t` for an index known to be in range (out-of-range
reads never occur on the executions modelled; they default to `0`). -/
def getT (ts : List ℚ) (i : ℤ) : ℚ := ts.getD i.toNat 0

/-- The `while (lo <= hi)` loop of `findNearestIndex`.  `(lo + hi) >> 1` is
an arithmetic right shift, i.e. floor division by 2, which is `ℤ` division
by the positive constant 2. -/
def fniLoop (ts : List ℚ) (t : ℚ) (lo hi : ℤ) : ℤ × ℤ :=
  if h : lo ≤ hi then
    if getT ts ((lo + hi) / 2) < t then fniLoop ts t ((lo + hi) / 2 + 1) hi
    else fniLoop ts t lo ((lo + hi) / 2 - 1)
  else (lo, hi)
termination_by (hi + 1 - lo).toNat
decreasing_by
  · omega
  · omega

/-- `findNearestIndex(t)` from `video.js` over the current `timeline`. -/
def findNearestIndex (tl : List TimelineEntry) (t : ℚ) : ℤ :=
  let ts := tl.map TimelineEntry.t
  if ts.length = 0 then -1
  else
    let n : ℤ := ts.length
    let p := fniLoop ts t 0 (n - 1)
    if p.2 < 0 then 0
    else if n ≤ p.1 then n - 1
    else if t - getT ts p.2 ≤ getT ts p.1 - t then p.2 else p.1

/-- The fields of the `/api/count/video` JSON body that `detectVideo` reads.
`timeline = none` models a missing/non-array field (`Array.isArray` guard);
`avg_count`/`max_count` use `none` for a missing field (the code's `|| 0`). -/
structure VideoResp where
  timeline : Option (List TimelineEntry)
  avg_count : Option ℚ
  max_count : Option ℚ
deriving DecidableEq, Repr

/-- The mutable state of `video.js` that `detectVideo` touches.  `stats`
models the stats display: `none` is the cleared `"-"` text, `some (avg, mx)`
the `avg=… max=…` text. -/
structure VideoState where
  timeline : List TimelineEntry
  avgCount : ℚ
  maxCount : ℚ
  stats : Option (ℚ × ℚ)
deriving DecidableEq, Repr

/-- Observable side effects of `detectVideo`. -/
inductive VEffect
  | disableDetect
  | setInfoLoading
  | setInfoDone
  | setInfoError
  | setDebugSummary
  | setDebugError
  | clearOverlay
  | updateOverlay
  | enableDetect
deriving DecidableEq, Repr

/-- The `catch` block of `detectVideo`: error info, reset the timeline and
the aggregates, clear the stats display and the overlay surface. -/
def detectFailure (s : VideoState) : VideoState × List VEffect :=
  ({ s with timeline := [], avgCount := 0, maxCount := 0, stats := none },
   [.setInfoError, .clearOverlay, .setDebugError])

/-- `detectVideo()` from `video.js`.  `resp` is the outcome of the upload
fetch: rejected, or arrived with HTTP success flag and parsed body (a parse
failure yields the empty body via `.catch(() => ({}))`).  A non-success
response throws, landing in the same `catch` block as a rejected fetch. -/
def detectVideo (s : VideoState) (hasFile : Bool) (resp : FetchRes (Bool × VideoResp)) :
    VideoState × List VEffect :=
  if hasFile = false then (s, [])
  else
    let run : VideoState × List VEffect :=
      match resp with
      | .rejected => detectFailure s
      | .arrived (ok, data) =>
        if ok = false then detectFailure s
        else
          ({ s with timeline := data.timeline.getD [],
                    avgCount := data.avg_count.getD 0,
                    maxCount := data.max_count.getD 0,
                    stats := some (data.avg_count.getD 0, data.max_count.getD 0) },
           [.setInfoDone, .setDebugSummary, .updateOverlay])
    (run.1, [VEffect.disableDetect, .setInfoLoading] ++ run.2 ++ [.enableDetect])

end VideoJS

namespace PhotoJS

/-- A polygon point in native image coordinates. -/
structure RoiPoint where
  x : ℚ
  y : ℚ
deriving DecidableEq, Repr

/-- The mutable state of `photo.js` relevant to the ROI editor:
`file !== null`, the native image size, the on-screen bounding rect of the
image, the polygon, the edit flag and the drag index (`-1` = none). -/
structure PhotoState where
  hasFile : Bool
  imgW : ℚ
  imgH : ℚ
  rectW : ℚ
  rectH : ℚ
  roiPts : List RoiPoint
  roiEdit : Bool
  dragIdx : ℤ
deriving DecidableEq, Repr

/-- `canvasSizeToImage().w`: `Math.max(1, Math.round(rect.width))`.  The
JavaScript `Math.round` rounds half toward `+∞`, which is Mathlib's
`round`. -/
def canvasW (s : PhotoState) : ℚ := ((max 1 (round s.rectW) : ℤ) : ℚ)

/-- `canvasSizeToImage().h`. -/
def canvasH (s : PhotoState) : ℚ := ((max 1 (round s.rectH) : ℤ) : ℚ)

/-- `dispToImg(x, y)`: display (canvas) coordinates to native image
coordinates. -/
def dispToImg (s : PhotoState) (x y : ℚ) : RoiPoint :=
  ⟨x / canvasW s * s.imgW, y / canvasH s * s.imgH⟩

/-- `imgToDisp(x, y)`: native image coordinates to display coordinates. -/
def imgToDisp (s : PhotoState) (x y : ℚ) : RoiPoint :=
  ⟨x / s.imgW * canvasW s, y / s.imgH * canvasH s⟩

/-- The scan of `hitTestPoint`: first index whose display position is within
squared distance `8 * 8` of the press position, else `-1`. -/
def hitTestAux (s : PhotoState) (dispX dispY : ℚ) : List RoiPoint → ℕ → ℤ
  | [], _ => -1
  | p :: rest, i =>
    let q := imgToDisp s p.x p.y
    let dx := dispX - q.x
    let dy := dispY - q.y
    if dx * dx + dy * dy ≤ 8 * 8 then (i : ℤ)
    else hitTestAux s dispX dispY rest (i + 1)

/-- `hitTestPoint(dispX, dispY)` from `photo.js` (radius `r = 8`). -/
def hitTestPoint (s : PhotoState) (dispX dispY : ℚ) : ℤ :=
  hitTestAux s dispX dispY s.roiPts 0

/-- The discrete input events consumed by the ROI editor's handlers. -/
inductive PEvent
  | pointerDown (x y : ℚ)
  | pointerMove (x y : ℚ)
  | pointerUp
  | keyEscape
  | clickEditRoi
  | clickClearRoi
  | fileChange (selected : Bool)
  | imgLoaded (w h : ℚ)
  | clickClearAll
deriving DecidableEq, Repr

/-- The clamp applied by the `pointermove` handler:
`[0, imgW-1] x [0, imgH-1]`. -/
def clampPoint (s : PhotoState) (p : RoiPoint) : RoiPoint :=
  ⟨max 0 (min (s.imgW - 1) p.x), max 0 (min (s.imgH - 1) p.y)⟩

/-- The `pointerdown` handler: guard `!roiEdit || !imgW`, hit-test, then
either begin a drag of the hit index or append the press location converted
to native coordinates. -/
def stepPointerDown (s : PhotoState) (x y : ℚ) : PhotoState :=
  if s.roiEdit = false ∨ s.imgW = 0 then s
  else
    let idx := hitTestPoint s x y
    if 0 ≤ idx then { s with dragIdx := idx }
    else { s with roiPts := s.roiPts ++ [dispToImg s x y] }

/-- The `pointermove` handler: guard `!roiEdit || dragIdx < 0 || !imgW`,
then overwrite the dragged point with the clamped converted position. -/
def stepPointerMove (s : PhotoState) (x y : ℚ) : PhotoState :=
  if s.roiEdit = false ∨ s.dragIdx < 0 ∨ s.imgW = 0 then s
  else { s with roiPts := s.roiPts.set s.dragIdx.toNat (clampPoint s (dispToImg s x y)) }

/-- The `pointerup` handler: end the drag if one is active. -/
def stepPointerUp (s : PhotoState) : PhotoState :=
  if 0 ≤ s.dragIdx then { s with dragIdx := -1 } else s

/-- One editor-state transition per input event, each transcribed from the
corresponding handler in `photo.js`. -/
def photoStep (s : PhotoState) : PEvent → PhotoState
  | .pointerDown x y => stepPointerDown s x y
  | .pointerMove x y => stepPointerMove s x y
  | .pointerUp => stepPointerUp s
  | .keyEscape => if s.roiEdit then { s with roiEdit := false, dragIdx := -1 } else s
  | .clickEditRoi => if s.hasFile then { s with roiEdit := !s.roiEdit, dragIdx := -1 } else s
  | .clickClearRoi => { s with roiPts := [], dragIdx := -1 }
  | .fileChange selected =>
    if selected then { s with hasFile := true, roiPts := [], roiEdit := false, dragIdx := -1 }
    else s
  | .imgLoaded w h => { s with imgW := w, imgH := h }
  | .clickClearAll =>
    { hasFile := false, imgW := 0, imgH := 0, rectW := s.rectW, rectH := s.rectH,
      roiPts := [], roiEdit := false, dragIdx := -1 }

/-- The press position `(x, y)` lies within the fixed 8-pixel display-space
radius of point `p` (the squared-distance test performed by
`hitTestPoint`). -/
def withinR (s : PhotoState) (x y : ℚ) (p : RoiPoint) : Prop :=
  (x - (imgToDisp s p.x p.y).x) * (x - (imgToDisp s p.x p.y).x) +
    (y - (imgToDisp s p.x p.y).y) * (y - (imgToDisp s p.x p.y).y) ≤ 8 * 8

instance (s : PhotoState) (x y : ℚ) (p : RoiPoint) : Decidable (withinR s x y p) :=
  inferInstanceAs (Decidable (_ ≤ _))

/-- A multipart form field value: the uploaded file, a string, or the
JSON-serialized ROI array (kept structured). -/
inductive FormValue
  | filePart
  | str (s : String)
  | roiJson (pts : List (ℚ × ℚ))
deriving DecidableEq, Repr

/-- The form built by the `btnDetect` click handler in `photo.js`:
`file`, `roi_enabled`, and — only when ROI is enabled and at least three
points exist — `roi` (points normalized by the native image size) and
`roi_format`. -/
def buildPhotoForm (roiChecked : Bool) (roiPts : List RoiPoint) (imgW imgH : ℚ) :
    List (String × FormValue) :=
  let useRoi := roiChecked && decide (3 ≤ roiPts.length)
  let fd := [(("file" : String), FormValue.filePart),
             (("roi_enabled" : String), FormValue.str (if useRoi then ("true") else ("false")))]
  if useRoi then
    fd ++ [(("roi" : String), FormValue.roiJson (roiPts.map (fun p => (p.x / imgW, p.y / imgH)))),
           (("roi_format" : String), FormValue.str ("norm"))]
  else fd

end PhotoJS

/-! ## Theorems -/

namespace StreamJS

open StrOps

/-- The counting loop equals a filter-and-count over the line list. -/
theorem countSegLines_eq_filter (ls : List (List Char)) :
    countSegLines ls =
      (ls.filter (fun l => !(chStarts ['#'] l) &&
        (chEnds sufTs l || chEnds sufM4s l))).length := by
  induction ls with
  | nil => rfl
  | cons hd tl ih =>
    by_cases h1 : chStarts ['#'] hd = true
    · simp [countSegLines, h1, ih]
    · by_cases h2 : (chEnds sufTs hd || chEnds sufM4s hd) = true
      · simp [countSegLines, h1, h2, ih, Nat.add_comm]
      · simp [countSegLines, h1, h2, ih]

/-- C4 (amended): `countSegmentsInM3U8` returns the number of lines that,
after trimming surrounding whitespace, are non-empty, do not start with
`#`, and end with `.ts` or `.m4s`; on the playlist
`"#EXTM3U\nseg1.ts\nseg2.ts\n#EXT-X-ENDLIST"` it returns 2. -/
theorem countSegments_trimmed_line_count :
    (∀ text : String, countSegmentsInM3U8 text = trimmedSegmentLineCount text) ∧
    countSegmentsInM3U8 ("#EXTM3U\nseg1.ts\nseg2.ts\n#EXT-X-ENDLIST") = 2 := by
  constructor
  · intro text
    unfold countSegmentsInM3U8 trimmedSegmentLineCount
    rw [countSegLines_eq_filter, List.filter_filter]
    congr 1
    apply List.filter_congr
    intro l _
    cases hts : chEnds sufTs l <;> cases hm4 : chEnds sufM4s l <;>
      cases hstart : chStarts ['#'] l <;> cases hemp : l.isEmpty <;> rfl
  · decide

/-- C4 (counterexample): the code's count differs from the spec's literal
"raw lines" count on a playlist whose segment line carries a trailing
space — the code trims the line and counts it, the literal reading does
not. -/
theorem countSegments_spec_literal_counterexample :
    countSegmentsInM3U8 ("seg1.ts \nseg2.ts") ≠
      specSegmentLineCount ("seg1.ts \nseg2.ts") := by
  decide

/-- C1 (counterexample): a wait that captured token 1 is superseded while
suspended in its fetch (the global token moves to 2); the fetch then
resolves with a ready playlist, and the loop still updates the badge — a
side effect performed while the captured token differs from the global
one.  So the loop does not check the token before each observable side
effect. -/
theorem wait_stale_effect_counterexample :
    ¬ ∀ (token minSegs : Nat) (sched : List IterEnv),
        noStaleWaitEffects token minSegs sched := by
  intro hcl
  have h1 := hcl 1 2 [⟨.arrived (some "a.ts\nb.ts"), 2, 2⟩]
    ⟨.setBadge .wait (.progress 2 2), 2⟩ (by decide)
  exact absurd h1 (by decide)

/-- C1 (amended): the wait loop checks the captured token against the
global token exactly once per iteration, at the iteration head before the
fetch.  A wait that is stale at an iteration head terminates immediately
with a cancellation outcome (not an error) and performs no further side
effects; side effects between that check and the next head are unguarded,
so a wait superseded during a fetch still performs the remainder of that
iteration's effects. -/
theorem wait_token_checked_at_iteration_head :
    (∀ (token minSegs g : Nat) (env : IterEnv) (rest : List IterEnv),
        token ≠ g → waitLoopGo token minSegs g (env :: rest) = ([], .cancelled)) ∧
    (∀ (token minSegs g : Nat) (env env2 : IterEnv) (rest : List IterEnv)
        (effs : List TaggedEffect),
        token = g → token ≠ env.gAfterSleep →
        fetchPhase minSegs env = (effs, none) →
        waitLoopGo token minSegs g (env :: env2 :: rest) = (effs, .cancelled)) := by
  constructor
  · intro token minSegs g env rest hne
    simp [waitLoopGo, hne]
  · intro token minSegs g env env2 rest effs heq hne hfp
    subst heq
    simp [waitLoopGo, hfp, hne]

/-- C1 (witness): a wait stale at its first iteration head cancels with no
effects; a wait that goes stale during its first sleep cancels at the
second iteration head. -/
theorem wait_token_checked_at_iteration_head_witness :
    waitLoopGo 1 2 2 [⟨.arrived none, 2, 2⟩] = ([], .cancelled) ∧
    waitLoopGo 1 2 1 [⟨.arrived none, 1, 7⟩, ⟨.arrived none, 7, 7⟩] = ([], .cancelled) := by
  constructor
  · exact wait_token_checked_at_iteration_head.1 1 2 2 ⟨.arrived none, 2, 2⟩ [] (by decide)
  · exact wait_token_checked_at_iteration_head.2 1 2 1 ⟨.arrived none, 1, 7⟩
      ⟨.arrived none, 7, 7⟩ [] [] rfl (by decide) rfl

/-- C3 (counterexample): `startPipeline` has no `try/catch`; a
network-level failure of the start fetch escapes as an uncaught exception
(and no error is logged), so the controller operations are not all
crash-free. -/
theorem start_stop_uncaught_network_counterexample :
    ¬ ∀ (t : Nat) (env : StartEnv), (startPipeline t env).thrown = none := by
  intro hcl
  exact absurd (hcl 0 ⟨"rtsp://x", .rejected, []⟩) (by decide)

/-- C3 (amended): network-level fetch failures are caught only in the
reload handler (which logs the failure) and the status poller (silently);
in `startPipeline` and `stopPipeline` a network-level failure propagates as
an uncaught exception with no error log (`stopPipeline` having already
bumped the token and set the idle badge). -/
theorem network_failure_handling_amended :
    (∀ (t : Nat) (env : StartEnv),
        env.fetchStart = .rejected → (chTrim env.inputUrl.data).isEmpty = false →
        startPipeline t env = ⟨t, [], some ()⟩) ∧
    (∀ (t : Nat) (env : StopEnv), env.fetchStop = .rejected →
        stopPipeline t env = ⟨t + 1, [.setBadge .idle .noExtra], some ()⟩) ∧
    (∀ (t : Nat) (env : ReloadEnv), (reloadHandler t env).thrown = none) ∧
    (∀ (t : Nat) (env : ReloadEnv), env.fetchSt = .rejected →
        Effect.appendLog .reloadFailed ∈ (reloadHandler t env).effects) ∧
    (∀ r : FetchRes StatusData, (pollStatusOnce r).2 = none) := by
  refine ⟨?_, ?_, ?_, ?_, ?_⟩
  · intro t env h1 h2
    simp [startPipeline, h1, h2]
  · intro t env h1
    simp [stopPipeline, h1]
  · intro t env
    cases h : env.fetchSt with
    | rejected => simp [reloadHandler, h]
    | arrived st =>
      by_cases hurl : st.hls_url = ""
      · simp [reloadHandler, h, hurl]
      · cases hw : (waitForHlsReady (t + 1) (t + 1) 2 env.sched).2 <;>
          simp [reloadHandler, h, hurl, hw]
  · intro t env h1
    simp [reloadHandler, h1]
  · intro r
    cases r <;> rfl

/-- C3 (witness): concrete rejected fetches for start and stop, and a
rejected status fetch for reload (caught and logged). -/
theorem network_failure_handling_amended_witness :
    startPipeline 0 ⟨"rtsp://x", .rejected, []⟩ = ⟨0, [], some ()⟩ ∧
    stopPipeline 3 ⟨.rejected⟩ = ⟨4, [.setBadge .idle .noExtra], some ()⟩ ∧
    (reloadHandler 0 ⟨.rejected, []⟩).thrown = none ∧
    Effect.appendLog .reloadFailed ∈ (reloadHandler 0 ⟨.rejected, []⟩).effects := by
  refine ⟨?_, ?_, ?_, ?_⟩
  · exact network_failure_handling_amended.1 0 ⟨"rtsp://x", .rejected, []⟩ rfl (by decide)
  · exact network_failure_handling_amended.2.1 3 ⟨.rejected⟩ rfl
  · exact network_failure_handling_amended.2.2.1 0 ⟨.rejected, []⟩
  · exact network_failure_handling_amended.2.2.2.1 0 ⟨.rejected, []⟩ rfl

/-- The fetch phase of a polling iteration never produces the cancellation
outcome (cancellation arises only from the head token check). -/
theorem fetchPhase_snd_ne_cancelled (minSegs : Nat) (env : IterEnv) :
    (fetchPhase minSegs env).2 ≠ some WaitOutcome.cancelled := by
  unfold fetchPhase
  rcases env.fetched with _ | (_ | text) <;> simp
  split_ifs <;> simp

/-- A wait whose captured token equals the global token, with no other
operation changing the token during its schedule, never cancels. -/
theorem waitLoopGo_no_cancel (token minSegs : Nat) :
    ∀ (sched : List IterEnv),
      (∀ e ∈ sched, e.gAfterFetch = token ∧ e.gAfterSleep = token) →
      (waitLoopGo token minSegs token sched).2 ≠ .cancelled := by
  intro sched
  induction sched with
  | nil =>
    intro _
    simp [waitLoopGo]
  | cons env rest ih =>
    intro hall
    have henv := hall env (by simp)
    have hrest : ∀ e ∈ rest, e.gAfterFetch = token ∧ e.gAfterSleep = token :=
      fun e he => hall e (by simp [he])
    cases hfp : fetchPhase minSegs env with
    | mk effs out? =>
      cases out? with
      | some out =>
        have hnc := fetchPhase_snd_ne_cancelled minSegs env
        rw [hfp] at hnc
        simp only [waitLoopGo, if_pos rfl, hfp]
        simp at hnc
        simp [hnc]
      | none =>
        simp only [waitLoopGo, if_pos rfl, hfp]
        rw [henv.2]
        exact ih hrest

/-- C9: a start whose control request returns a non-success HTTP status
leaves the generation token unchanged and performs no player handoff; with
the token unchanged, a previously in-flight wait that captured the current
token is not cancelled (it can still complete and hand off). -/
theorem start_nonok_token_unchanged :
    ∀ (t : Nat) (env : StartEnv) (resp : HttpResp),
      env.fetchStart = .arrived resp → resp.ok = false →
      (startPipeline t env).token = t ∧
      (∀ u : String, Effect.loadPlayer u ∉ (startPipeline t env).effects) ∧
      (∀ (minSegs : Nat) (sched : List IterEnv),
        (∀ e ∈ sched, e.gAfterFetch = t ∧ e.gAfterSleep = t) →
        (waitLoopGo t minSegs t sched).2 ≠ .cancelled) := by
  intro t env resp h1 h2
  refine ⟨?_, ?_, ?_⟩
  · by_cases hempty : (chTrim env.inputUrl.data).isEmpty = true
    · simp [startPipeline, hempty]
    · simp [startPipeline, hempty, h1, h2]
  · intro u
    by_cases hempty : (chTrim env.inputUrl.data).isEmpty = true
    · simp [startPipeline, hempty]
    · simp [startPipeline, hempty, h1, h2]
  · intro minSegs sched hall
    exact waitLoopGo_no_cancel t minSegs sched hall

/-- C9 (witness): a concrete non-success start response. -/
theorem start_nonok_token_unchanged_witness :
    (startPipeline 5 ⟨"rtsp://x", .arrived ⟨false, ⟨"boom", ""⟩⟩, []⟩).token = 5 ∧
    (∀ u : String,
      Effect.loadPlayer u ∉
        (startPipeline 5 ⟨"rtsp://x", .arrived ⟨false, ⟨"boom", ""⟩⟩, []⟩).effects) ∧
    (∀ (minSegs : Nat) (sched : List IterEnv),
      (∀ e ∈ sched, e.gAfterFetch = 5 ∧ e.gAfterSleep = 5) →
      (waitLoopGo 5 minSegs 5 sched).2 ≠ .cancelled) :=
  start_nonok_token_unchanged 5 ⟨"rtsp://x", .arrived ⟨false, ⟨"boom", ""⟩⟩, []⟩
    ⟨false, ⟨"boom", ""⟩⟩ rfl rfl

end StreamJS

namespace VideoJS

/-- C10: when a video detection submission fails (rejected fetch or a
non-success response, which throws into the same `catch` block), the
previously loaded timeline is discarded: the timeline becomes empty, the
average and maximum counts become zero, the stats display is cleared, and
the overlay surface is cleared. -/
theorem detect_failure_resets :
    ∀ (s : VideoState) (resp : FetchRes (Bool × VideoResp)),
      (resp = .rejected ∨ ∃ data, resp = .arrived (false, data)) →
      (detectVideo s true resp).1.timeline = [] ∧
      (detectVideo s true resp).1.avgCount = 0 ∧
      (detectVideo s true resp).1.maxCount = 0 ∧
      (detectVideo s true resp).1.stats = none ∧
      VEffect.clearOverlay ∈ (detectVideo s true resp).2 := by
  intro s resp hfail
  rcases hfail with h | ⟨data, h⟩ <;> subst h <;>
    simp [detectVideo, detectFailure]

/-- `getT` at a natural-number index is plain list access. -/
theorem getT_natCast (ts : List ℚ) (j : ℕ) : getT ts (j : ℤ) = ts.getD j 0 := by
  simp [getT]

/-- Monotone access into a `≤`-sorted list. -/
theorem getD_mono_of_pairwise (ts : List ℚ) (hsort : List.Pairwise (· ≤ ·) ts)
    (i j : ℕ) (hij : i ≤ j) (hj : j < ts.length) :
    ts.getD i 0 ≤ ts.getD j 0 := by
  rcases Nat.lt_or_ge i j with hlt | hge
  · rw [List.getD_eq_getElem ts 0 (by omega), List.getD_eq_getElem ts 0 hj]
    exact List.pairwise_iff_getElem.mp hsort i j (by omega) hj hlt
  · have hij' : i = j := by omega
    subst hij'
    rfl

/-- Invariant of the binary-search loop: starting from a range whose
outside is already classified (`< t` below `lo`, `≥ t` above `hi`), the
loop ends with `lo = hi + 1` and the whole sorted array classified: every
index below the final `lo` holds a value `< t`, every index above the final
`hi` holds a value `≥ t`. -/
theorem fniLoop_spec (ts : List ℚ) (t : ℚ) (hsort : List.Pairwise (· ≤ ·) ts) :
    ∀ (fuel : ℕ) (lo hi : ℤ), (hi + 1 - lo).toNat ≤ fuel →
      0 ≤ lo → lo ≤ hi + 1 → hi < (ts.length : ℤ) →
      (∀ i : ℕ, (i : ℤ) < lo → ts.getD i 0 < t) →
      (∀ i : ℕ, hi < (i : ℤ) → i < ts.length → t ≤ ts.getD i 0) →
      (fniLoop ts t lo hi).1 = (fniLoop ts t lo hi).2 + 1 ∧
      0 ≤ (fniLoop ts t lo hi).1 ∧ (fniLoop ts t lo hi).1 ≤ (ts.length : ℤ) ∧
      (∀ i : ℕ, (i : ℤ) < (fniLoop ts t lo hi).1 → ts.getD i 0 < t) ∧
      (∀ i : ℕ, (fniLoop ts t lo hi).2 < (i : ℤ) → i < ts.length →
        t ≤ ts.getD i 0) := by
  intro fuel
  induction fuel with
  | zero =>
    intro lo hi hfuel h0 h1 h2 hlow hhigh
    have hexit : ¬ lo ≤ hi := by omega
    rw [fniLoop, dif_neg hexit]
    exact ⟨by omega, by omega, by omega, hlow, hhigh⟩
  | succ n ih =>
    intro lo hi hfuel h0 h1 h2 hlow hhigh
    by_cases hcond : lo ≤ hi
    · have hmid1 : lo ≤ (lo + hi) / 2 := by omega
      have hmid2 : (lo + hi) / 2 ≤ hi := by omega
      rw [fniLoop, dif_pos hcond]
      by_cases hval : getT ts ((lo + hi) / 2) < t
      · rw [if_pos hval]
        apply ih ((lo + hi) / 2 + 1) hi (by omega) (by omega) (by omega) h2 ?_ hhigh
        intro i hi'
        have hle : ts.getD i 0 ≤ ts.getD ((lo + hi) / 2).toNat 0 :=
          getD_mono_of_pairwise ts hsort i ((lo + hi) / 2).toNat (by omega) (by omega)
        have hval' : ts.getD ((lo + hi) / 2).toNat 0 < t := hval
        exact lt_of_le_of_lt hle hval'
      · rw [if_neg hval]
        apply ih lo ((lo + hi) / 2 - 1) (by omega) h0 (by omega) (by omega) hlow ?_
        intro i hi1 hi2
        have hle : ts.getD ((lo + hi) / 2).toNat 0 ≤ ts.getD i 0 :=
          getD_mono_of_pairwise ts hsort ((lo + hi) / 2).toNat i (by omega) hi2
        have hval' : t ≤ ts.getD ((lo + hi) / 2).toNat 0 := le_of_not_lt hval
        exact le_trans hval' hle
    · rw [fniLoop, dif_neg hcond]
      exact ⟨by omega, by omega, by omega, hlow, hhigh⟩

/-- C2: on every timeline sorted non-decreasing by `t`, `findNearestIndex`
returns `-1` on the empty timeline; on a non-empty timeline it returns an
in-range index minimizing the distance `|entry.t - t|`; and when the two
neighbors straddling the query (the last entry below `t` and the first
entry at or above `t`) are equidistant from it, the earlier (smaller) index
is returned. -/
theorem findNearestIndex_nearest_spec :
    ∀ (tl : List TimelineEntry) (t : ℚ),
      List.Pairwise (· ≤ ·) (tl.map TimelineEntry.t) →
      (tl = [] → findNearestIndex tl t = -1) ∧
      (tl ≠ [] →
        ∃ r : ℕ, findNearestIndex tl t = (r : ℤ) ∧ r < tl.length ∧
          ∀ j : ℕ, j < tl.length →
            |getT (tl.map TimelineEntry.t) (r : ℤ) - t| ≤
              |getT (tl.map TimelineEntry.t) (j : ℤ) - t|) ∧
      (∀ k : ℕ, k + 1 < tl.length →
        getT (tl.map TimelineEntry.t) (k : ℤ) < t →
        t ≤ getT (tl.map TimelineEntry.t) ((k : ℤ) + 1) →
        t - getT (tl.map TimelineEntry.t) (k : ℤ) =
          getT (tl.map TimelineEntry.t) ((k : ℤ) + 1) - t →
        findNearestIndex tl t = (k : ℤ)) := by
  intro tl t hsort
  by_cases hnil : tl = []
  · subst hnil
    refine ⟨fun _ => rfl, fun hne => absurd rfl hne, ?_⟩
    intro k hk
    simp at hk
  · set ts := tl.map TimelineEntry.t with hts
    have hlen : ts.length = tl.length := by
      rw [hts]
      exact List.length_map _ _
    have hpos : 0 < tl.length := List.length_pos.mpr hnil
    have hlen0 : ¬ ts.length = 0 := by omega
    obtain ⟨heq, hge0, hle_n, hA, hB⟩ :=
      fniLoop_spec ts t hsort (((ts.length : ℤ) - 1) + 1 - 0).toNat 0 ((ts.length : ℤ) - 1)
        le_rfl (by omega) (by omega) (by omega)
        (fun i h => absurd h (by omega))
        (fun i h1 h2 => absurd h1 (by omega))
    set p := fniLoop ts t 0 ((ts.length : ℤ) - 1) with hp
    have hres : findNearestIndex tl t =
        (if p.2 < 0 then 0
         else if (ts.length : ℤ) ≤ p.1 then (ts.length : ℤ) - 1
         else if t - getT ts p.2 ≤ getT ts p.1 - t then p.2 else p.1) := by
      simp only [findNearestIndex]
      rw [← hts, if_neg hlen0, ← hp]
    have habs_lt : ∀ a : ℚ, a < t → |a - t| = t - a := by
      intro a ha
      rw [abs_of_neg (by linarith)]
      ring
    have habs_ge : ∀ a : ℚ, t ≤ a → |a - t| = a - t := by
      intro a ha
      exact abs_of_nonneg (by linarith)
    rcases lt_or_ge p.2 0 with hc1 | hc1
    · -- all entries are at or above the query: index 0 is returned
      have hBall : ∀ i : ℕ, i < ts.length → t ≤ ts.getD i 0 := by
        intro i hi
        exact hB i (by omega) hi
      refine ⟨fun h => absurd h hnil, ?_, ?_⟩
      · intro _
        refine ⟨0, ?_, by omega, ?_⟩
        · rw [hres, if_pos hc1]
          simp
        · intro j hj
          rw [getT_natCast, getT_natCast]
          rw [habs_ge _ (hBall 0 (by omega)), habs_ge _ (hBall j (by omega))]
          have hmono := getD_mono_of_pairwise ts hsort 0 j (by omega) (by omega)
          linarith
      · intro k hk1 hklt hkge hdist
        rw [getT_natCast] at hklt
        exact absurd hklt (not_lt.mpr (hBall k (by omega)))
    · rcases le_or_lt (ts.length : ℤ) p.1 with hc2 | hc2
      · -- all entries are below the query: the last index is returned
        have hAall : ∀ i : ℕ, i < ts.length → ts.getD i 0 < t := by
          intro i hi
          exact hA i (by omega)
        refine ⟨fun h => absurd h hnil, ?_, ?_⟩
        · intro _
          refine ⟨tl.length - 1, ?_, by omega, ?_⟩
          · rw [hres, if_neg (by omega), if_pos hc2]
            omega
          · intro j hj
            rw [getT_natCast, getT_natCast]
            rw [habs_lt _ (hAall (tl.length - 1) (by omega)),
              habs_lt _ (hAall j (by omega))]
            have hmono := getD_mono_of_pairwise ts hsort j (tl.length - 1)
              (by omega) (by omega)
            linarith
        · intro k hk1 hklt hkge hdist
          have hcast : ((k : ℤ) + 1) = ((k + 1 : ℕ) : ℤ) := by push_cast; ring
          rw [hcast, getT_natCast] at hkge
          exact absurd (hAall (k + 1) (by omega)) (not_lt.mpr hkge)
      · -- the query straddles positions p.2 and p.1 = p.2 + 1
        have hAh : ts.getD p.2.toNat 0 < t := hA p.2.toNat (by omega)
        have hBl : t ≤ ts.getD p.1.toNat 0 := hB p.1.toNat (by omega) (by omega)
        have hgh : getT ts p.2 = ts.getD p.2.toNat 0 := rfl
        have hgl : getT ts p.1 = ts.getD p.1.toNat 0 := rfl
        refine ⟨fun h => absurd h hnil, ?_, ?_⟩
        · intro _
          by_cases hd : t - getT ts p.2 ≤ getT ts p.1 - t
          · refine ⟨p.2.toNat, ?_, by omega, ?_⟩
            · rw [hres, if_neg (by omega), if_neg (by omega), if_pos hd]
              omega
            · intro j hj
              rw [getT_natCast, getT_natCast]
              rw [habs_lt _ hAh]
              rw [hgh, hgl] at hd
              rcases le_or_lt j p.2.toNat with hj2 | hj2
              · have hmono := getD_mono_of_pairwise ts hsort j p.2.toNat hj2 (by omega)
                rw [habs_lt _ (lt_of_le_of_lt hmono hAh)]
                linarith
              · have hjl : p.1.toNat ≤ j := by omega
                have hmono := getD_mono_of_pairwise ts hsort p.1.toNat j hjl (by omega)
                rw [habs_ge _ (le_trans hBl hmono)]
                linarith
          · refine ⟨p.1.toNat, ?_, by omega, ?_⟩
            · rw [hres, if_neg (by omega), if_neg (by omega), if_neg hd]
              omega
            · intro j hj
              rw [getT_natCast, getT_natCast]
              rw [habs_ge _ hBl]
              push_neg at hd
              rw [hgh, hgl] at hd
              rcases le_or_lt j p.2.toNat with hj2 | hj2
              · have hmono := getD_mono_of_pairwise ts hsort j p.2.toNat hj2 (by omega)
                rw [habs_lt _ (lt_of_le_of_lt hmono hAh)]
                linarith
              · have hjl : p.1.toNat ≤ j := by omega
                have hmono := getD_mono_of_pairwise ts hsort p.1.toNat j hjl (by omega)
                rw [habs_ge _ (le_trans hBl hmono)]
                linarith
        · intro k hk1 hklt hkge hdist
          rw [getT_natCast] at hklt hdist
          have hcast : ((k : ℤ) + 1) = ((k + 1 : ℕ) : ℤ) := by push_cast; ring
          rw [hcast, getT_natCast] at hkge hdist
          have hklt1 : (k : ℤ) < p.1 := by
            by_contra hcon
            push_neg at hcon
            have hge := hB k (by omega) (by omega)
            exact absurd hklt (not_lt.mpr hge)
          have hkge1 : p.1 ≤ (k : ℤ) + 1 := by
            by_contra hcon
            push_neg at hcon
            have hlt := hA (k + 1) (by omega)
            exact absurd hlt (not_lt.mpr hkge)
          have hkp2 : (k : ℤ) = p.2 := by omega
          have hcond : t - getT ts p.2 ≤ getT ts p.1 - t := by
            rw [hgh, hgl]
            have hn2 : p.2.toNat = k := by omega
            have hn1 : p.1.toNat = k + 1 := by omega
            rw [hn1, hn2]
            linarith
          rw [hres, if_neg (by omega), if_neg (by omega), if_pos hcond]
          omega

/-- C2 (witness): the sorted two-entry timeline `[0, 2]` — the theorem
applies, giving the none sentinel behaviour, a distance-minimizing index
and the tie rule. -/
theorem findNearestIndex_nearest_spec_witness :
    (([⟨0, 0, []⟩, ⟨2, 0, []⟩] : List TimelineEntry) = [] →
      findNearestIndex [⟨0, 0, []⟩, ⟨2, 0, []⟩] 1 = -1) ∧
    (([⟨0, 0, []⟩, ⟨2, 0, []⟩] : List TimelineEntry) ≠ [] →
      ∃ r : ℕ, findNearestIndex [⟨0, 0, []⟩, ⟨2, 0, []⟩] 1 = (r : ℤ) ∧
        r < ([⟨0, 0, []⟩, ⟨2, 0, []⟩] : List TimelineEntry).length ∧
        ∀ j : ℕ, j < ([⟨0, 0, []⟩, ⟨2, 0, []⟩] : List TimelineEntry).length →
          |getT (([⟨0, 0, []⟩, ⟨2, 0, []⟩] : List TimelineEntry).map TimelineEntry.t)
              (r : ℤ) - 1| ≤
            |getT (([⟨0, 0, []⟩, ⟨2, 0, []⟩] : List TimelineEntry).map TimelineEntry.t)
              (j : ℤ) - 1|) ∧
    (∀ k : ℕ, k + 1 < ([⟨0, 0, []⟩, ⟨2, 0, []⟩] : List TimelineEntry).length →
      getT (([⟨0, 0, []⟩, ⟨2, 0, []⟩] : List TimelineEntry).map TimelineEntry.t)
          (k : ℤ) < 1 →
      (1 : ℚ) ≤ getT (([⟨0, 0, []⟩, ⟨2, 0, []⟩] : List TimelineEntry).map TimelineEntry.t)
          ((k : ℤ) + 1) →
      1 - getT (([⟨0, 0, []⟩, ⟨2, 0, []⟩] : List TimelineEntry).map TimelineEntry.t)
          (k : ℤ) =
        getT (([⟨0, 0, []⟩, ⟨2, 0, []⟩] : List TimelineEntry).map TimelineEntry.t)
          ((k : ℤ) + 1) - 1 →
      findNearestIndex [⟨0, 0, []⟩, ⟨2, 0, []⟩] 1 = (k : ℤ)) :=
  findNearestIndex_nearest_spec [⟨0, 0, []⟩, ⟨2, 0, []⟩] 1
    (by norm_num [List.pairwise_cons])

/-- C10 (witness): a concrete failing submission over a non-trivial prior
state. -/
theorem detect_failure_resets_witness :
    (detectVideo ⟨[⟨1, 2, []⟩], 3, 4, some (3, 4)⟩ true .rejected).1.timeline = [] ∧
    (detectVideo ⟨[⟨1, 2, []⟩], 3, 4, some (3, 4)⟩ true .rejected).1.avgCount = 0 ∧
    (detectVideo ⟨[⟨1, 2, []⟩], 3, 4, some (3, 4)⟩ true .rejected).1.maxCount = 0 ∧
    (detectVideo ⟨[⟨1, 2, []⟩], 3, 4, some (3, 4)⟩ true .rejected).1.stats = none ∧
    VEffect.clearOverlay ∈ (detectVideo ⟨[⟨1, 2, []⟩], 3, 4, some (3, 4)⟩ true .rejected).2 :=
  detect_failure_resets ⟨[⟨1, 2, []⟩], 3, 4, some (3, 4)⟩ .rejected (Or.inl rfl)

end VideoJS

namespace PhotoJS

/-- The backing canvas width is at least 1, hence nonzero. -/
theorem canvasW_pos (s : PhotoState) : 0 < canvasW s := by
  unfold canvasW
  have h1 : (0 : ℤ) < max 1 (round s.rectW) :=
    lt_of_lt_of_le zero_lt_one (le_max_left _ _)
  exact_mod_cast h1

/-- The backing canvas height is at least 1, hence nonzero. -/
theorem canvasH_pos (s : PhotoState) : 0 < canvasH s := by
  unfold canvasH
  have h1 : (0 : ℤ) < max 1 (round s.rectH) :=
    lt_of_lt_of_le zero_lt_one (le_max_left _ _)
  exact_mod_cast h1

/-- C7: for positive native image dimensions (the rendered display size is
positive by construction: the canvas is clamped to at least one pixel), the
display-to-native transform inverts the native-to-display transform
exactly.  The transforms in `photo.js` operate in CSS display units and do
not involve the device pixel ratio, so the identity holds for every device
pixel ratio. -/
theorem coordinate_round_trip :
    ∀ (s : PhotoState) (p : RoiPoint), 0 < s.imgW → 0 < s.imgH →
      dispToImg s (imgToDisp s p.x p.y).x (imgToDisp s p.x p.y).y = p := by
  intro s p hW hH
  obtain ⟨px, py⟩ := p
  have hw := (canvasW_pos s).ne'
  have hh := (canvasH_pos s).ne'
  simp only [imgToDisp, dispToImg, RoiPoint.mk.injEq]
  constructor
  · field_simp
    ring
  · field_simp
    ring

/-- C7 (witness): round trip at a concrete state and point. -/
theorem coordinate_round_trip_witness :
    dispToImg ⟨true, 100, 50, 199, 80, [], false, -1⟩
        (imgToDisp ⟨true, 100, 50, 199, 80, [], false, -1⟩ 3 7).x
        (imgToDisp ⟨true, 100, 50, 199, 80, [], false, -1⟩ 3 7).y = ⟨3, 7⟩ :=
  coordinate_round_trip ⟨true, 100, 50, 199, 80, [], false, -1⟩ ⟨3, 7⟩
    (by norm_num) (by norm_num)

/-- C5: the `roi` form parameter is present iff ROI usage is enabled and at
least three points exist, and when present it holds exactly the points
normalized by the native image dimensions. -/
theorem roi_param_iff_min_points :
    ∀ (checked : Bool) (pts : List RoiPoint) (w h : ℚ),
      ((∃ v, (("roi" : String), v) ∈ buildPhotoForm checked pts w h) ↔
        (checked = true ∧ 3 ≤ pts.length)) ∧
      (checked = true → 3 ≤ pts.length →
        (("roi" : String),
          FormValue.roiJson (pts.map (fun p => (p.x / w, p.y / h)))) ∈
            buildPhotoForm checked pts w h) := by
  intro checked pts w h
  by_cases hc : checked = true
  · by_cases hl : 3 ≤ pts.length
    · have huse : (checked && decide (3 ≤ pts.length)) = true := by
        simp [hc, hl]
      constructor
      · constructor
        · intro _
          exact ⟨hc, hl⟩
        · intro _
          exact ⟨FormValue.roiJson (pts.map (fun p => (p.x / w, p.y / h))),
            by simp [buildPhotoForm, huse]⟩
      · intro _ _
        simp [buildPhotoForm, huse]
    · have huse : (checked && decide (3 ≤ pts.length)) = false := by
        simp [hl]
      constructor
      · constructor
        · intro ⟨v, hv⟩
          simp [buildPhotoForm, huse] at hv
        · intro ⟨_, h2⟩
          exact absurd h2 hl
      · intro _ h2
        exact absurd h2 hl
  · have huse : (checked && decide (3 ≤ pts.length)) = false := by
      simp [Bool.eq_false_iff.mpr hc]
    constructor
    · constructor
      · intro ⟨v, hv⟩
        simp [buildPhotoForm, huse] at hv
      · intro ⟨h1, _⟩
        exact absurd h1 hc
    · intro h1 _
      exact absurd h1 hc

/-- Unfolding of the hit-test scan on a cons cell, with the squared
distance test folded back into `withinR`. -/
theorem hitTestAux_cons (s : PhotoState) (x y : ℚ) (p : RoiPoint)
    (rest : List RoiPoint) (i : ℕ) :
    hitTestAux s x y (p :: rest) i =
      if withinR s x y p then (i : ℤ) else hitTestAux s x y rest (i + 1) := rfl

/-- If no point is within the hit radius, the scan returns `-1`. -/
theorem hitTestAux_eq_neg (s : PhotoState) (x y : ℚ) :
    ∀ (pts : List RoiPoint) (i : ℕ),
      (∀ p ∈ pts, ¬ withinR s x y p) → hitTestAux s x y pts i = -1 := by
  intro pts
  induction pts with
  | nil => intro i _; rfl
  | cons p rest ih =>
    intro i hall
    have hp := hall p (by simp)
    rw [hitTestAux_cons, if_neg hp]
    exact ih (i + 1) (fun q hq => hall q (by simp [hq]))

/-- If some point is within the hit radius, the scan returns the offset of
the first such point. -/
theorem hitTestAux_eq_pos (s : PhotoState) (x y : ℚ) :
    ∀ (pts : List RoiPoint) (i : ℕ),
      (∃ p ∈ pts, withinR s x y p) →
      ∃ k : ℕ, k < pts.length ∧ withinR s x y (pts.getD k ⟨0, 0⟩) ∧
        hitTestAux s x y pts i = (i : ℤ) + (k : ℤ) := by
  intro pts
  induction pts with
  | nil =>
    rintro i ⟨p, hp, _⟩
    simp at hp
  | cons p rest ih =>
    intro i hex
    by_cases hp : withinR s x y p
    · refine ⟨0, by simp, by simpa using hp, ?_⟩
      rw [hitTestAux_cons, if_pos hp]
      simp
    · have hex' : ∃ q ∈ rest, withinR s x y q := by
        rcases hex with ⟨q, hq, hwq⟩
        rcases List.mem_cons.mp hq with rfl | hq'
        · exact absurd hwq hp
        · exact ⟨q, hq', hwq⟩
      obtain ⟨k, hk, hwk, heq⟩ := ih (i + 1) hex'
      refine ⟨k + 1, by simpa using Nat.succ_lt_succ hk, by simpa using hwk, ?_⟩
      rw [hitTestAux_cons, if_neg hp, heq]
      push_cast
      ring

/-- C6: a pointer press in edit mode (with a loaded image): if the press is
within the fixed 8-pixel display radius of some existing point, a drag of a
hit point's index begins and no point is appended; if it is outside the
radius of every point, exactly one point is appended at the press location
converted to native coordinates and the drag state is untouched. -/
theorem pointerdown_hit_or_append :
    ∀ (s : PhotoState) (x y : ℚ), s.roiEdit = true → s.imgW ≠ 0 →
      ((∃ p ∈ s.roiPts, withinR s x y p) →
        ∃ i : ℕ, i < s.roiPts.length ∧ withinR s x y (s.roiPts.getD i ⟨0, 0⟩) ∧
          stepPointerDown s x y = { s with dragIdx := (i : ℤ) }) ∧
      ((∀ p ∈ s.roiPts, ¬ withinR s x y p) →
        stepPointerDown s x y = { s with roiPts := s.roiPts ++ [dispToImg s x y] }) := by
  intro s x y hedit hw
  have hguard : ¬ (s.roiEdit = false ∨ s.imgW = 0) := by
    simp [hedit, hw]
  constructor
  · intro hex
    obtain ⟨k, hk, hwk, heq⟩ := hitTestAux_eq_pos s x y s.roiPts 0 hex
    have hidx : hitTestPoint s x y = (k : ℤ) := by
      unfold hitTestPoint
      rw [heq]
      simp
    refine ⟨k, hk, hwk, ?_⟩
    unfold stepPointerDown
    rw [if_neg hguard]
    simp only [hidx]
    rw [if_pos (by positivity)]
  · intro hall
    have h1 := hitTestAux_eq_neg s x y s.roiPts 0 hall
    unfold stepPointerDown
    rw [if_neg hguard]
    simp only [hitTestPoint, h1]
    rw [if_neg (by norm_num)]

/-- C6 (witness): a press at display position (12, 12) hits the point whose
display position is (10, 10) and begins a drag. -/
theorem pointerdown_hit_or_append_witness :
    ∃ i : ℕ,
      i < (⟨true, 100, 100, 100, 100, [⟨10, 10⟩], true, -1⟩ : PhotoState).roiPts.length ∧
      withinR ⟨true, 100, 100, 100, 100, [⟨10, 10⟩], true, -1⟩ 12 12
        ((⟨true, 100, 100, 100, 100, [⟨10, 10⟩], true, -1⟩ : PhotoState).roiPts.getD i ⟨0, 0⟩) ∧
      stepPointerDown ⟨true, 100, 100, 100, 100, [⟨10, 10⟩], true, -1⟩ 12 12 =
        { (⟨true, 100, 100, 100, 100, [⟨10, 10⟩], true, -1⟩ : PhotoState) with
            dragIdx := (i : ℤ) } :=
  (pointerdown_hit_or_append ⟨true, 100, 100, 100, 100, [⟨10, 10⟩], true, -1⟩ 12 12
      rfl (by norm_num)).1
    ⟨⟨10, 10⟩, by simp,
      by norm_num [withinR, imgToDisp, canvasW, canvasH, round, max_def]⟩

/-- C8: the drag-exclusivity invariant.  The editor state holds a single
drag index, so at most one point is marked dragging by construction; every
event preserves "a drag index is set only in edit mode"; and no event other
than a pointer press can begin (or change) a drag — every other event
either leaves the drag index unchanged or clears it. -/
theorem drag_exclusivity_invariant :
    (∀ (s : PhotoState) (e : PEvent),
        (0 ≤ s.dragIdx → s.roiEdit = true) →
        (0 ≤ (photoStep s e).dragIdx → (photoStep s e).roiEdit = true)) ∧
    (∀ (s : PhotoState) (e : PEvent), (∀ x y : ℚ, e ≠ .pointerDown x y) →
        (photoStep s e).dragIdx = s.dragIdx ∨ (photoStep s e).dragIdx = -1) := by
  constructor
  · intro s e hinv
    cases e with
    | pointerDown x y =>
      simp only [photoStep, stepPointerDown]
      by_cases hg : s.roiEdit = false ∨ s.imgW = 0
      · rw [if_pos hg]; exact hinv
      · have hedit : s.roiEdit = true := by
          rcases not_or.mp hg with ⟨h1, _⟩
          simpa using h1
        rw [if_neg hg]
        by_cases hidx : 0 ≤ hitTestPoint s x y
        · rw [if_pos hidx]; intro _; exact hedit
        · rw [if_neg hidx]; intro _; exact hedit
    | pointerMove x y =>
      simp only [photoStep, stepPointerMove]
      split_ifs
      · exact hinv
      · exact hinv
    | pointerUp =>
      simp only [photoStep, stepPointerUp]
      split_ifs
      · intro h; exact absurd h (by norm_num)
      · exact hinv
    | keyEscape =>
      simp only [photoStep]
      split_ifs
      · intro h; exact absurd h (by norm_num)
      · exact hinv
    | clickEditRoi =>
      simp only [photoStep]
      split_ifs
      · intro h; exact absurd h (by norm_num)
      · exact hinv
    | clickClearRoi =>
      simp only [photoStep]
      intro h
      exact absurd h (by norm_num)
    | fileChange selected =>
      simp only [photoStep]
      split_ifs
      · intro h; exact absurd h (by norm_num)
      · exact hinv
    | imgLoaded w h => exact hinv
    | clickClearAll =>
      simp only [photoStep]
      intro h
      exact absurd h (by norm_num)
  · intro s e hne
    cases e with
    | pointerDown x y => exact absurd rfl (hne x y)
    | pointerMove x y =>
      simp only [photoStep, stepPointerMove]
      split_ifs <;> left <;> rfl
    | pointerUp =>
      simp only [photoStep, stepPointerUp]
      split_ifs
      · right; rfl
      · left; rfl
    | keyEscape =>
      simp only [photoStep]
      split_ifs
      · right; rfl
      · left; rfl
    | clickEditRoi =>
      simp only [photoStep]
      split_ifs
      · right; rfl
      · left; rfl
    | clickClearRoi => right; rfl
    | fileChange selected =>
      simp only [photoStep]
      split_ifs
      · right; rfl
      · left; rfl
    | imgLoaded w h => left; rfl
    | clickClearAll => right; rfl

/-- C8 (witness): a concrete state with an active drag — a pointer release
preserves the invariant and an escape key clears (not reassigns) the
drag. -/
theorem drag_exclusivity_invariant_witness :
    (0 ≤ (photoStep ⟨true, 100, 100, 100, 100, [⟨1, 1⟩], true, 0⟩ .pointerUp).dragIdx →
      (photoStep ⟨true, 100, 100, 100, 100, [⟨1, 1⟩], true, 0⟩ .pointerUp).roiEdit = true) ∧
    ((photoStep ⟨true, 100, 100, 100, 100, [⟨1, 1⟩], true, 0⟩ .keyEscape).dragIdx =
        (⟨true, 100, 100, 100, 100, [⟨1, 1⟩], true, 0⟩ : PhotoState).dragIdx ∨
      (photoStep ⟨true, 100, 100, 100, 100, [⟨1, 1⟩], true, 0⟩ .keyEscape).dragIdx = -1) := by
  constructor
  · exact drag_exclusivity_invariant.1 ⟨true, 100, 100, 100, 100, [⟨1, 1⟩], true, 0⟩
      .pointerUp (fun _ => rfl)
  · exact drag_exclusivity_invariant.2 ⟨true, 100, 100, 100, 100, [⟨1, 1⟩], true, 0⟩
      .keyEscape (fun x y h => PEvent.noConfusion h)

/-- C5 (witness): with ROI enabled and exactly 2 points no `roi` parameter
is emitted; with 3 points the normalized parameter is present. -/
theorem roi_param_iff_min_points_witness :
    (¬ ∃ v, (("roi" : String), v) ∈ buildPhotoForm true [⟨1, 1⟩, ⟨2, 2⟩] 10 10) ∧
    (("roi" : String),
      FormValue.roiJson [(1 / 10, 2 / 10), (3 / 10, 4 / 10), (5 / 10, 6 / 10)]) ∈
        buildPhotoForm true [⟨1, 2⟩, ⟨3, 4⟩, ⟨5, 6⟩] 10 10 := by
  constructor
  · intro hex
    have h2 := ((roi_param_iff_min_points true [⟨1, 1⟩, ⟨2, 2⟩] 10 10).1.mp hex).2
    simp at h2
  · exact (roi_param_iff_min_points true [⟨1, 2⟩, ⟨3, 4⟩, ⟨5, 6⟩] 10 10).2 rfl
      (by norm_num)

end PhotoJS

